import Mathlib

/-!
Verification of the property-finder core (search engine and ML price
predictor) against its specification.  The C++ sources are shallowly
embedded: `double` values are modelled as exact rationals except where
`std::sqrt` forces real numbers, `std::vector` as `List`, `std::map`
from strings as association lists, and fallible operations
(`std::stod` exceptions, failed file opens) as `Option`.
-/

namespace PF

/-- A real-estate listing, embedding the C++ class `Property`
(src/property.h): integer identifier, city, price, bedroom and bathroom
counts, floor area, free-form type category, coordinates, amenity
labels and an optional predicted price (0 meaning unset). -/
structure Property where
  id : ℤ
  city : String
  price : ℚ
  bedrooms : ℤ
  bathrooms : ℤ
  size : ℚ
  type : String
  latitude : ℚ
  longitude : ℚ
  amenities : List String
  predicted_price : ℚ
  deriving Repr, DecidableEq

/-- `SearchEngine::calculateSimilarity` (search_engine.cpp:254-284):
+0.3 for same city, +0.2 for same type, bedroom-difference bonus
(0.2 / 0.1 / 0), +0.2 times min/max price quotient, +0.1 times
min/max size quotient.  Rational division by zero yields 0 where the
C++ doubles would give NaN (claims only use positive prices/sizes). -/
def calculateSimilarity (p1 p2 : Property) : ℚ :=
  let cityPart : ℚ := if p1.city = p2.city then 3/10 else 0
  let typePart : ℚ := if p1.type = p2.type then 2/10 else 0
  let bedroomDiff : ℤ := |p1.bedrooms - p2.bedrooms|
  let bedroomPart : ℚ := if bedroomDiff = 0 then 2/10 else if bedroomDiff = 1 then 1/10 else 0
  let priceQuot : ℚ := (min p1.price p2.price) / (max p1.price p2.price)
  let sizeQuot : ℚ := (min p1.size p2.size) / (max p1.size p2.size)
  cityPart + typePart + bedroomPart + (2/10) * priceQuot + (1/10) * sizeQuot

end PF

namespace PF

/-- Accumulator run of a digit string, used by the models of
`std::stod` and `std::stoi`; fails on any non-digit character. -/
def parseNatAux : ℕ → List Char → Option ℕ
  | acc, [] => some acc
  | acc, c :: cs => if c.isDigit then parseNatAux (10 * acc + (c.toNat - 48)) cs else none

/-- A non-empty all-digit run. -/
def parseNatDigits (cs : List Char) : Option ℕ :=
  if cs.isEmpty then none else parseNatAux 0 cs

/-- Split a character list at the first dot, keeping what follows it. -/
def splitDot : List Char → List Char × Option (List Char)
  | [] => ([], none)
  | c :: rest =>
    if c = '.' then ([], some rest)
    else
      let p := splitDot rest
      (c :: p.1, p.2)

/-- Models `std::stod` on well-formed decimal literals (optional minus
sign, digits, optional fractional part); the claims only exercise this
well-formed subset, on which stod returns exactly this value. -/
def parseRat (s : String) : Option ℚ :=
  let cs := s.toList
  let sign : ℚ := if cs.head? = some '-' then -1 else 1
  let body := if cs.head? = some '-' then cs.tail else cs
  match splitDot body with
  | (ip, none) => (parseNatDigits ip).map (fun n => sign * n)
  | (ip, some fp) =>
    if ip.isEmpty && fp.isEmpty then none
    else
      match parseNatAux 0 ip, parseNatAux 0 fp with
      | some n, some f => some (sign * ((n : ℚ) + (f : ℚ) / 10 ^ fp.length))
      | _, _ => none

/-- Models `std::stoi` on well-formed integer literals. -/
def parseInt (s : String) : Option ℤ :=
  let cs := s.toList
  if cs.head? = some '-' then (parseNatDigits cs.tail).map (fun n => -(n : ℤ))
  else (parseNatDigits cs).map (fun n => (n : ℤ))

/-- One iteration of the criteria loop of `Property::matchesFilter`
(property.cpp:76-118): `none` models a thrown `std::stod`/`std::stoi`
exception, `some false` an early `return false`, `some true` going on
to the next criterion.  Unrecognized keys fall through the else-if
chain and are ignored. -/
def checkCriterion (p : Property) (key value : String) : Option Bool :=
  if key = "city" then some (decide (p.city = value))
  else if key = "min_price" then (parseRat value).map (fun v => !decide (p.price < v))
  else if key = "max_price" then (parseRat value).map (fun v => !decide (p.price > v))
  else if key = "bedrooms" then (parseInt value).map (fun v => decide (p.bedrooms = v))
  else if key = "bathrooms" then (parseInt value).map (fun v => decide (p.bathrooms = v))
  else if key = "type" then some (decide (p.type = value))
  else if key = "min_size" then (parseRat value).map (fun v => !decide (p.size < v))
  else if key = "max_size" then (parseRat value).map (fun v => !decide (p.size > v))
  else some true

/-- `Property::matchesFilter` (property.cpp:76-118): conjunction over
all supplied criteria, short-circuiting on the first failed one; a
parse exception aborts the whole call. -/
def matchesFilter (p : Property) : List (String × String) → Option Bool
  | [] => some true
  | (key, value) :: rest =>
    match checkCriterion p key value with
    | none => none
    | some false => some false
    | some true => matchesFilter p rest

/-- `SearchEngine::search` (search_engine.cpp:15-29): keep the
properties whose `matchesFilter` is true; a parse exception in any
iteration propagates out of the whole search. -/
def search : List Property → List (String × String) → Option (List Property)
  | [], _ => some []
  | p :: ps, filters =>
    match matchesFilter p filters with
    | none => none
    | some true => (search ps filters).map (fun r => p :: r)
    | some false => search ps filters

/-- Following the specification wording (§4.3): what it means for a
listing to satisfy one criterion — exact match for city, type,
bedrooms, bathrooms; inclusive bounds for the min/max keys; any other
key imposes nothing. -/
def satisfiesCriterion (p : Property) (key value : String) : Prop :=
  if key = "city" then p.city = value
  else if key = "min_price" then ∃ v, parseRat value = some v ∧ v ≤ p.price
  else if key = "max_price" then ∃ v, parseRat value = some v ∧ p.price ≤ v
  else if key = "bedrooms" then ∃ v, parseInt value = some v ∧ p.bedrooms = v
  else if key = "bathrooms" then ∃ v, parseInt value = some v ∧ p.bathrooms = v
  else if key = "type" then p.type = value
  else if key = "min_size" then ∃ v, parseRat value = some v ∧ v ≤ p.size
  else if key = "max_size" then ∃ v, parseRat value = some v ∧ p.size ≤ v
  else True

/-- The hypothesis of C5: every numeric value in the criteria map is
parseable. -/
def NumericParseable (filters : List (String × String)) : Prop :=
  ∀ kv ∈ filters,
    ((kv.1 = "min_price" ∨ kv.1 = "max_price" ∨ kv.1 = "min_size" ∨ kv.1 = "max_size") →
      ∃ v, parseRat kv.2 = some v) ∧
    ((kv.1 = "bedrooms" ∨ kv.1 = "bathrooms") → ∃ v, parseInt kv.2 = some v)

theorem checkCriterion_some_true_iff (p : Property) (key value : String)
    (hrat : (key = "min_price" ∨ key = "max_price" ∨ key = "min_size" ∨ key = "max_size") →
      ∃ v, parseRat value = some v)
    (hint : (key = "bedrooms" ∨ key = "bathrooms") → ∃ v, parseInt value = some v) :
    (checkCriterion p key value = some true ↔ satisfiesCriterion p key value) ∧
      checkCriterion p key value ≠ none := by
  unfold checkCriterion satisfiesCriterion
  split_ifs with h1 h2 h3 h4 h5 h6 h7 h8
  · simp
  · obtain ⟨v, hv⟩ := hrat (Or.inl h2)
    simp [hv, not_lt]
  · obtain ⟨v, hv⟩ := hrat (Or.inr (Or.inl h3))
    simp [hv, not_lt]
  · obtain ⟨v, hv⟩ := hint (Or.inl h4)
    simp [hv]
  · obtain ⟨v, hv⟩ := hint (Or.inr h5)
    simp [hv]
  · simp
  · obtain ⟨v, hv⟩ := hrat (Or.inr (Or.inr (Or.inl h7)))
    simp [hv, not_lt]
  · obtain ⟨v, hv⟩ := hrat (Or.inr (Or.inr (Or.inr h8)))
    simp [hv, not_lt]
  · simp

theorem matchesFilter_eq_true_iff (p : Property) :
    ∀ filters : List (String × String), NumericParseable filters →
      (matchesFilter p filters = some true ↔
        ∀ kv ∈ filters, satisfiesCriterion p kv.1 kv.2) ∧
      matchesFilter p filters ≠ none := by
  intro filters
  induction filters with
  | nil => intro _; simp [matchesFilter]
  | cons kv rest ih =>
    intro hC
    obtain ⟨key, value⟩ := kv
    have hhead := hC (key, value) (List.mem_cons_self _ _)
    have hrest : NumericParseable rest := fun kv h => hC kv (List.mem_cons_of_mem _ h)
    obtain ⟨ihiff, ihnn⟩ := ih hrest
    obtain ⟨hciff, hcnn⟩ := checkCriterion_some_true_iff p key value hhead.1 hhead.2
    constructor
    · constructor
      · intro h
        intro kv hkv
        rcases List.mem_cons.mp hkv with hkv | hkv
        · subst hkv
          unfold matchesFilter at h
          rcases hc : checkCriterion p key value with _ | b
          · exact absurd hc hcnn
          · rcases b with _ | _
            · rw [hc] at h; exact absurd h (by simp)
            · exact hciff.mp hc
        · unfold matchesFilter at h
          rcases hc : checkCriterion p key value with _ | b
          · exact absurd hc hcnn
          · rcases b with _ | _
            · rw [hc] at h; exact absurd h (by simp)
            · rw [hc] at h
              exact ihiff.mp h kv hkv
      · intro h
        have hch : checkCriterion p key value = some true :=
          hciff.mpr (h (key, value) (List.mem_cons_self _ _))
        have hr : matchesFilter p rest = some true :=
          ihiff.mpr (fun kv hkv => h kv (List.mem_cons_of_mem _ hkv))
        unfold matchesFilter
        rw [hch, hr]
    · unfold matchesFilter
      rcases hc : checkCriterion p key value with _ | b
      · exact absurd hc hcnn
      · rcases b with _ | _
        · simp
        · exact ihnn

theorem search_nil_filters (ps : List Property) : search ps [] = some ps := by
  induction ps with
  | nil => rfl
  | cons p ps ih => simp [search, matchesFilter, ih]

/-- C5: for a single listing and a criteria map whose numeric values
parse, the filter returns the singleton back iff the listing satisfies
every criterion present (exact matches for city, type, bedrooms,
bathrooms; inclusive bounds for the min/max keys; unknown keys
ignored); an empty criteria map returns any input unchanged. -/
theorem filter_singleton_iff (p : Property) (filters : List (String × String))
    (hC : NumericParseable filters) :
    (search [p] filters = some [p] ↔
      ∀ kv ∈ filters, satisfiesCriterion p kv.1 kv.2) ∧
    ∀ ps : List Property, search ps [] = some ps := by
  obtain ⟨hiff, hnn⟩ := matchesFilter_eq_true_iff p filters hC
  refine ⟨?_, search_nil_filters⟩
  constructor
  · intro h
    apply hiff.mp
    rcases hm : matchesFilter p filters with _ | b
    · exact absurd hm hnn
    · rcases b with _ | _
      · simp [search, hm] at h
      · rfl
  · intro h
    have := hiff.mpr h
    simp [search, this]

/-- C5 (witness): concrete evaluation of the filter theorem on a
listing and a two-criterion map. -/
theorem filter_singleton_iff_witness :
    NumericParseable [("city", "Mumbai"), ("min_price", "90")] ∧
      (search [⟨1, "Mumbai", 100, 2, 1, 50, "flat", 19, 72, [], 0⟩]
          [("city", "Mumbai"), ("min_price", "90")] =
        some [⟨1, "Mumbai", 100, 2, 1, 50, "flat", 19, 72, [], 0⟩] ↔
        ∀ kv ∈ [("city", "Mumbai"), ("min_price", "90")],
          satisfiesCriterion ⟨1, "Mumbai", 100, 2, 1, 50, "flat", 19, 72, [], 0⟩ kv.1 kv.2) := by
  have hC : NumericParseable [("city", "Mumbai"), ("min_price", "90")] := by
    intro kv hkv
    simp only [List.mem_cons, List.not_mem_nil, or_false] at hkv
    rcases hkv with rfl | rfl
    · exact ⟨fun h => absurd h (by simp), fun h => absurd h (by simp)⟩
    · exact ⟨fun _ => ⟨90, by simp [parseRat, parseNatDigits, parseNatAux, splitDot]⟩,
        fun h => absurd h (by simp)⟩
  exact ⟨hC, (filter_singleton_iff _ _ hC).1⟩

/-- The entries of the map returned by
`SearchEngine::calculatePriceStatistics` for a non-empty input. -/
structure PriceStats where
  count : ℚ
  mean : ℚ
  min : ℚ
  max : ℚ
  median : ℚ
  std_dev : ℝ

/-- `SearchEngine::calculatePriceStatistics` (search_engine.cpp:176-215).
The empty map returned on empty input is modelled as `none`.  The
`std::sort` over the price values is modelled by insertion sort: on a
list of rationals every sorted permutation is the same list, so this is
the unique result any conforming `std::sort` produces. -/
noncomputable def calculatePriceStatistics (ps : List Property) : Option PriceStats :=
  match ps with
  | [] => none
  | _ =>
    let prices := List.insertionSort (· ≤ ·) (ps.map Property.price)
    let n : ℚ := prices.length
    let sum := prices.foldl (· + ·) 0
    let mean := sum / n
    let median :=
      if prices.length % 2 = 0 then
        (prices.getD (prices.length / 2 - 1) 0 + prices.getD (prices.length / 2) 0) / 2
      else prices.getD (prices.length / 2) 0
    let varSum := prices.foldl (fun acc p => acc + (p - mean) ^ 2) 0
    some
      { count := n, mean := mean, min := prices.headD 0, max := prices.getLastD 0,
        median := median, std_dev := Real.sqrt (↑(varSum / n) : ℝ) }

theorem foldl_add_eq (l : List ℚ) : ∀ a : ℚ, l.foldl (· + ·) a = a + l.sum := by
  induction l with
  | nil => intro a; simp
  | cons x t ih =>
    intro a
    simp only [List.foldl_cons, List.sum_cons, ih (a + x)]
    ring

theorem foldl_add_map_eq (f : ℚ → ℚ) (l : List ℚ) :
    ∀ a : ℚ, l.foldl (fun acc p => acc + f p) a = a + (l.map f).sum := by
  induction l with
  | nil => intro a; simp
  | cons x t ih =>
    intro a
    simp only [List.foldl_cons, List.map_cons, List.sum_cons, ih (a + f x)]
    ring

theorem sorted_headD_le (l : List ℚ) (hs : l.Sorted (· ≤ ·)) (hne : l ≠ []) :
    l.headD 0 ∈ l ∧ ∀ x ∈ l, l.headD 0 ≤ x := by
  cases l with
  | nil => exact absurd rfl hne
  | cons a t =>
    refine ⟨List.mem_cons_self a t, ?_⟩
    intro x hx
    rcases List.mem_cons.mp hx with rfl | hx
    · exact le_refl _
    · exact List.rel_of_sorted_cons hs x hx

theorem sorted_getLastD_ge (l : List ℚ) (hs : l.Sorted (· ≤ ·)) (hne : l ≠ []) :
    l.getLastD 0 ∈ l ∧ ∀ x ∈ l, x ≤ l.getLastD 0 := by
  induction l with
  | nil => exact absurd rfl hne
  | cons a t ih =>
    cases t with
    | nil => simp
    | cons b u =>
      obtain ⟨hmem, hle⟩ := ih hs.of_cons (by simp)
      have hsame : (a :: b :: u).getLastD 0 = (b :: u).getLastD 0 := by
        simp [List.getLastD_cons]
      refine ⟨?_, ?_⟩
      · rw [hsame]; exact List.mem_cons_of_mem a hmem
      · intro x hx
        rcases List.mem_cons.mp hx with rfl | hx
        · rw [hsame]; exact List.rel_of_sorted_cons hs _ hmem
        · rw [hsame]; exact hle x hx

/-- Following the specification wording: the correctness contract of
the returned statistics — count, arithmetic mean, minimum, maximum,
the standard even/odd median over the sorted price list, and the
population variance (divide by N) under the square root. -/
def StatsSpec (ps : List Property) (s : PriceStats) : Prop :=
  s.count = (ps.length : ℚ) ∧
  s.mean = (ps.map Property.price).sum / ps.length ∧
  (s.min ∈ ps.map Property.price ∧ ∀ x ∈ ps.map Property.price, s.min ≤ x) ∧
  (s.max ∈ ps.map Property.price ∧ ∀ x ∈ ps.map Property.price, x ≤ s.max) ∧
  (∃ sorted : List ℚ, sorted.Perm (ps.map Property.price) ∧ sorted.Sorted (· ≤ ·) ∧
    s.median =
      (if ps.length % 2 = 0 then
        (sorted.getD (ps.length / 2 - 1) 0 + sorted.getD (ps.length / 2) 0) / 2
      else sorted.getD (ps.length / 2) 0)) ∧
  s.std_dev ^ 2 =
    ((((ps.map Property.price).map (fun x => (x - s.mean) ^ 2)).sum / ps.length : ℚ) : ℝ) ∧
  0 ≤ s.std_dev

/-- C6: on a non-empty listing collection the statistics are the count,
mean, min, max, the even/odd median of the sorted price list and the
population standard deviation (square root of the divide-by-N
variance); the empty collection yields an empty map (`none`); and on
prices [100, 200, 300, 400] the result has count 4, mean 250, median
250, min 100, max 400. -/
theorem calculatePriceStatistics_spec :
    calculatePriceStatistics ([] : List Property) = none ∧
    (∀ ps : List Property, ps ≠ [] →
      ∃ s, calculatePriceStatistics ps = some s ∧ StatsSpec ps s) ∧
    (∃ s, calculatePriceStatistics
        [⟨1, "A", 100, 1, 1, 10, "t", 0, 0, [], 0⟩,
         ⟨2, "B", 200, 1, 1, 10, "t", 0, 0, [], 0⟩,
         ⟨3, "C", 300, 1, 1, 10, "t", 0, 0, [], 0⟩,
         ⟨4, "D", 400, 1, 1, 10, "t", 0, 0, [], 0⟩] = some s ∧
      s.count = 4 ∧ s.mean = 250 ∧ s.median = 250 ∧ s.min = 100 ∧ s.max = 400) := by
  refine ⟨rfl, ?_, ?_⟩
  · intro ps hne
    obtain ⟨p, t, rfl⟩ := List.exists_cons_of_ne_nil hne
    set L := (p :: t).map Property.price with hL
    set prices := List.insertionSort (· ≤ ·) L with hprices
    have hperm : prices.Perm L := List.perm_insertionSort _ L
    have hsorted : prices.Sorted (· ≤ ·) := List.sorted_insertionSort _ L
    have hlen : prices.length = (p :: t).length := by
      rw [hperm.length_eq, hL, List.length_map]
    have hpne : prices ≠ [] := by
      intro h
      rw [h] at hlen
      simp at hlen
    set n : ℚ := (prices.length : ℚ) with hn
    set mean : ℚ := prices.foldl (· + ·) 0 / n with hmean
    set varSum : ℚ := prices.foldl (fun acc x => acc + (x - mean) ^ 2) 0 with hvarSum
    have hvar_eq : varSum = (prices.map (fun x => (x - mean) ^ 2)).sum := by
      rw [hvarSum, foldl_add_map_eq, zero_add]
    have hvar_nonneg : 0 ≤ varSum / n := by
      apply div_nonneg
      · rw [hvar_eq]
        apply List.sum_nonneg
        intro x hx
        obtain ⟨y, _, rfl⟩ := List.mem_map.mp hx
        positivity
      · rw [hn]
        positivity
    refine ⟨⟨n, mean, prices.headD 0, prices.getLastD 0,
      if prices.length % 2 = 0 then
        (prices.getD (prices.length / 2 - 1) 0 + prices.getD (prices.length / 2) 0) / 2
      else prices.getD (prices.length / 2) 0,
      Real.sqrt ((varSum / n : ℚ) : ℝ)⟩, rfl, ?_, ?_, ?_, ?_, ?_, ?_, ?_⟩
    · rw [hn, hlen]
    · rw [hmean, foldl_add_eq, zero_add, hperm.sum_eq, hn, hlen]
    · obtain ⟨hmem, hle⟩ := sorted_headD_le prices hsorted hpne
      exact ⟨hperm.mem_iff.mp hmem, fun x hx => hle x (hperm.mem_iff.mpr hx)⟩
    · obtain ⟨hmem, hle⟩ := sorted_getLastD_ge prices hsorted hpne
      exact ⟨hperm.mem_iff.mp hmem, fun x hx => hle x (hperm.mem_iff.mpr hx)⟩
    · refine ⟨prices, hperm, hsorted, ?_⟩
      rw [← hlen]
    · show Real.sqrt ((varSum / n : ℚ) : ℝ) ^ 2 = _
      rw [Real.sq_sqrt (by exact_mod_cast hvar_nonneg)]
      have : varSum / n = (L.map (fun x => (x - mean) ^ 2)).sum / ((p :: t).length : ℚ) := by
        rw [hvar_eq, (hperm.map (fun x => (x - mean) ^ 2)).sum_eq, hn, hlen]
      exact_mod_cast congrArg (fun q : ℚ => ((q : ℝ))) this
    · exact Real.sqrt_nonneg _
  · refine ⟨_, rfl, ?_, ?_, ?_, ?_, ?_⟩ <;>
      norm_num [calculatePriceStatistics, List.insertionSort, List.orderedInsert,
        List.getD, List.getLastD]

/-- C6 (witness): the statistics theorem applied to a concrete
singleton collection. -/
theorem calculatePriceStatistics_spec_witness :
    ([⟨9, "X", 500, 2, 1, 40, "t", 0, 0, [], 0⟩] : List Property) ≠ [] ∧
      ∃ s, calculatePriceStatistics [⟨9, "X", 500, 2, 1, 40, "t", 0, 0, [], 0⟩] = some s ∧
        StatsSpec [⟨9, "X", 500, 2, 1, 40, "t", 0, 0, [], 0⟩] s :=
  ⟨by simp, calculatePriceStatistics_spec.2.1 _ (by simp)⟩

/-- The state of the C++ `MLPredictor` (ml_predictor.h): model-type
label, trained flag, regression weights and bias, stored normalization
parameters and the two categorical encodings.  Weights, bias and the
stored standard deviations are real-valued because the standard
deviations pass through `std::sqrt`. -/
structure Model where
  model_type : String
  is_trained : Bool
  weights : List ℝ
  bias : ℝ
  feature_means : List ℚ
  feature_stds : List ℝ
  city_encoding : List (String × ℤ)
  type_encoding : List (String × ℤ)

/-- `MLPredictor::MLPredictor()` (ml_predictor.cpp:8). -/
def initModel : Model :=
  ⟨"linear_regression", false, [], 0, [], [], [], []⟩

/-- `std::map<string,int>::find` on an encoding table. -/
def lookupCode (enc : List (String × ℤ)) (value : String) : Option ℤ :=
  (enc.find? (fun kv => kv.1 = value)).map Prod.snd

/-- `MLPredictor::encodeCategorical` (ml_predictor.cpp:231-244): return
the stored code, or assign the next code (the current table size) and
grow the table — it grows on demand in every phase, training or
prediction alike. -/
def encodeCategorical (value : String) (enc : List (String × ℤ)) : ℤ × List (String × ℤ) :=
  match lookupCode enc value with
  | some code => (code, enc)
  | none => ((enc.length : ℤ), enc ++ [(value, (enc.length : ℤ))])

/-- `MLPredictor::initializeEncodings` (ml_predictor.cpp:219-229):
clear both tables, then scan the data once in input order. -/
def initializeEncodings (m : Model) (data : List Property) : Model :=
  data.foldl
    (fun acc p =>
      { acc with
        city_encoding := (encodeCategorical p.city acc.city_encoding).2,
        type_encoding := (encodeCategorical p.type acc.type_encoding).2 })
    { m with city_encoding := [], type_encoding := [] }

/-- `MLPredictor::extractFeatures` (ml_predictor.cpp:81-101): the 9
features [city code, type code, bedrooms, bathrooms, size, latitude,
longitude, size per bedroom, amenity count].  Because the encoding
helper inserts unseen categories, the call can grow the encodings, so
the updated model state is returned alongside the vector.  Rational
division models the double division size/bedrooms; bedrooms = 0 (inf
in C++) is outside the scope of every claim. -/
def extractFeatures (m : Model) (p : Property) : Model × List ℚ :=
  let ce := encodeCategorical p.city m.city_encoding
  let te := encodeCategorical p.type m.type_encoding
  ({ m with city_encoding := ce.2, type_encoding := te.2 },
   [(ce.1 : ℚ), (te.1 : ℚ), (p.bedrooms : ℚ), (p.bathrooms : ℚ), p.size,
    p.latitude, p.longitude, p.size / (p.bedrooms : ℚ), (p.amenities.length : ℚ)])

/-- `std::vector::resize(n, fill)`: keep the first n existing elements
and pad with the fill value; existing entries are NOT cleared. -/
def vecResize {α : Type} (v : List α) (n : ℕ) (fill : α) : List α :=
  v.take n ++ List.replicate (n - v.length) fill

/-- `MLPredictor::calculateNormalizationParams`
(ml_predictor.cpp:246-284): per column, sum the entries and divide by
the row count, then sum the squared deviations from the stored means
and take the square root of the divide-by-N quotient, replacing a zero
standard deviation by 1.  Both accumulations start from whatever
`resize` leaves in the stored vectors — resize keeps previously stored
values, it does not zero them. -/
noncomputable def calculateNormalizationParams (m : Model) (features : List (List ℚ)) : Model :=
  match features with
  | [] => m
  | f0 :: _ =>
    let n := f0.length
    let meansAcc := features.foldl (fun acc r => List.zipWith (· + ·) acc r)
      (vecResize m.feature_means n 0)
    let means := meansAcc.map (fun x => x / (features.length : ℚ))
    let stdsAcc := features.foldl
      (fun acc r => List.zipWith (fun a xm => a + ((xm.1 - xm.2 : ℚ) : ℝ) ^ 2) acc (r.zip means))
      (vecResize m.feature_stds n 0)
    let stds := stdsAcc.map (fun s =>
      let v := Real.sqrt (s / (features.length : ℝ))
      if v = 0 then 1 else v)
    { m with feature_means := means, feature_stds := stds }

/-- The elementwise loop of `MLPredictor::normalizeFeatureVector`
(ml_predictor.cpp:286-296): scale while input and stored parameters
overlap, copy the remainder unscaled.  The means and stds vectors have
equal length in every state the code produces. -/
noncomputable def normVecAux : List ℚ → List ℚ → List ℝ → List ℝ
  | [], _, _ => []
  | x :: xs, mu :: ms, s :: ss => (((x - mu : ℚ) : ℝ) / s) :: normVecAux xs ms ss
  | x :: xs, _, _ => ((x : ℚ) : ℝ) :: xs.map (fun q => ((q : ℚ) : ℝ))

/-- `MLPredictor::normalizeFeatureVector` (ml_predictor.cpp:286-296). -/
noncomputable def normalizeFeatureVector (m : Model) (v : List ℚ) : List ℝ :=
  normVecAux v m.feature_means m.feature_stds

/-- `MLPredictor::predict` (ml_predictor.cpp:356-371): 0 on a feature
count different from the weight count, otherwise the affine
combination clamped below at 0. -/
noncomputable def predictWB (w : List ℝ) (b : ℝ) (f : List ℝ) : ℝ :=
  if f.length ≠ w.length then 0
  else max 0 (b + (List.zipWith (· * ·) w f).sum)

/-- `MLPredictor::predict` applied to a model state. -/
noncomputable def Model.predict (m : Model) (f : List ℝ) : ℝ :=
  predictWB m.weights m.bias f

/-- One full-batch iteration of `MLPredictor::trainLinearRegression`
(ml_predictor.cpp:316-353): residuals from the current weights
(through `predict`, hence clamped at 0), per-feature gradient sums and
the bias gradient sum, then the simultaneous update with learning rate
1/100 divided by the sample count. -/
noncomputable def gdStep (X : List (List ℝ)) (y : List ℝ) (wb : List ℝ × ℝ) : List ℝ × ℝ :=
  let errors := List.zipWith (fun x yi => predictWB wb.1 wb.2 x - yi) X y
  let wg := (errors.zip X).foldl
    (fun acc exi => List.zipWith (fun a xj => a + exi.1 * xj) acc exi.2)
    (List.replicate wb.1.length 0)
  let bg := errors.foldl (· + ·) 0
  (List.zipWith (fun wj gj => wj - (1 / 100) * gj / (X.length : ℝ)) wb.1 wg,
   wb.2 - (1 / 100) * bg / (X.length : ℝ))

/-- The fixed-count iteration loop (1000 iterations, no early exit). -/
noncomputable def gdIter (X : List (List ℝ)) (y : List ℝ) : ℕ → (List ℝ × ℝ) → (List ℝ × ℝ)
  | 0, wb => wb
  | k + 1, wb => gdIter X y k (gdStep X y wb)

/-- `MLPredictor::trainLinearRegression` (ml_predictor.cpp:298-354):
guard on empty or dimension-mismatched input (weights and bias left
untouched), resize of the weight vector to the feature count (stale
entries kept, new ones zero), bias reset, then 1000 iterations. -/
noncomputable def trainLinearRegression (m : Model) (X : List (List ℝ)) (y : List ℝ) : Model :=
  match X with
  | [] => m
  | f0 :: _ =>
    if X.length ≠ y.length then m
    else
      let wb := gdIter X y 1000 (vecResize m.weights f0.length 0, 0)
      { m with weights := wb.1, bias := wb.2 }

/-- `MLPredictor::trainModel` (ml_predictor.cpp:12-53): failure and
untouched state on empty input; otherwise rebuild the encodings, build
the feature matrix (threading the encoding state through the extract
calls), store normalization parameters, normalize every row, run the
regression training when the model type label says so, and set the
trained flag. -/
noncomputable def trainModel (m : Model) (training_data : List Property) : Bool × Model :=
  match training_data with
  | [] => (false, m)
  | _ =>
    let m1 := initializeEncodings m training_data
    let step := training_data.foldl
      (fun (acc : Model × List (List ℚ)) p =>
        let ef := extractFeatures acc.1 p
        (ef.1, acc.2 ++ [ef.2]))
      (m1, [])
    let y : List ℚ := training_data.map Property.price
    let m2 := calculateNormalizationParams step.1 step.2
    let xn := step.2.map (fun f => normalizeFeatureVector m2 f)
    let m3 :=
      if m2.model_type = "linear_regression" then
        trainLinearRegression m2 xn (y.map (fun q => ((q : ℚ) : ℝ)))
      else m2
    (true, { m3 with is_trained := true })

/-- `MLPredictor::predictPrice` (ml_predictor.cpp:55-67): 0 when
untrained (state untouched); otherwise extract (possibly growing the
encodings), normalize with the stored parameters, and predict.  The
updated model state is returned with the price. -/
noncomputable def predictPrice (m : Model) (p : Property) : Model × ℝ :=
  if m.is_trained = false then (m, 0)
  else
    let ef := extractFeatures m p
    let nf := normalizeFeatureVector ef.1 ef.2
    (ef.1, ef.1.predict nf)

/-- The exponent of the leading decimal digit of x: the 10-based
integer logarithm of the magnitude. -/
noncomputable def decExp (x : ℝ) : ℤ := Int.log 10 |x|

/-- The value recovered from the 6-significant-digit decimal rendering
that `operator<<` performs on a default `std::ofstream` (defaultfloat
with the default precision 6, as in printf %g): the value is rounded
at the sixth significant decimal digit, and `std::stod` on the
rendered text yields exactly that rounded decimal.  `round` models the
rounding of the conversion; the claims exercise no exact ties. -/
noncomputable def render6 (x : ℝ) : ℝ :=
  if x = 0 then 0
  else (round (x / (10 : ℝ) ^ (decExp x - 5)) : ℝ) * (10 : ℝ) ^ (decExp x - 5)

/-- The persisted text form written by `MLPredictor::saveModel`
(ml_predictor.cpp:187-217): the model-type line, the bias line, one
weight per line in vector order.  Each numeric line holds the value of
the precision-6 decimal rendering of the written double. -/
structure SavedModel where
  model_type : String
  bias : ℝ
  weights : List ℝ

/-- `MLPredictor::saveModel`: refuses (returns false, modelled as
`none`) on an untrained model; otherwise writes the model type and the
precision-6 renderings of the bias and of every weight, in order.
File-system failures are outside the embedding. -/
noncomputable def saveModel (m : Model) : Option SavedModel :=
  if m.is_trained = false then none
  else some ⟨m.model_type, render6 m.bias, m.weights.map render6⟩

/-- `MLPredictor::loadModel` (ml_predictor.cpp:149-185): overwrite the
model type, bias and weight vector, set `is_trained` to whether the
read weight list is non-empty, and touch neither the encodings nor the
normalization parameters. -/
def loadModel (m : Model) (f : SavedModel) : Bool × Model :=
  (true,
   { m with
      model_type := f.model_type, bias := f.bias, weights := f.weights,
      is_trained := !f.weights.isEmpty })

/-- C4 (counterexample): on a concrete listing with positive price and
size, the self-similarity score is 1, not the 3/2 the claim states. -/
theorem selfSimilarity_concrete_ne_three_halves :
    calculateSimilarity
        ⟨1, "Mumbai", 100, 2, 1, 50, "apartment", 19, 72, [], 0⟩
        ⟨1, "Mumbai", 100, 2, 1, 50, "apartment", 19, 72, [], 0⟩ = 1 ∧
      calculateSimilarity
        ⟨1, "Mumbai", 100, 2, 1, 50, "apartment", 19, 72, [], 0⟩
        ⟨1, "Mumbai", 100, 2, 1, 50, "apartment", 19, 72, [], 0⟩ ≠ 3/2 := by
  constructor
  · simp [calculateSimilarity]
    norm_num
  · simp [calculateSimilarity]
    norm_num

/-- C4 (amended): for every listing with positive price and positive
size, the similarity score of the listing compared with itself equals 1
(sum of 3/10 + 2/10 + 2/10 + 2/10 + 1/10). -/
theorem selfSimilarity_eq_one (p : Property) (hp : 0 < p.price) (hs : 0 < p.size) :
    calculateSimilarity p p = 1 := by
  unfold calculateSimilarity
  simp only [if_pos rfl, sub_self, abs_zero, min_self, max_self,
    div_self hp.ne', div_self hs.ne']
  norm_num

/-- C4 (witness): the amended self-similarity theorem applied to a
concrete listing. -/
theorem selfSimilarity_eq_one_witness :
    (0:ℚ) < 80 ∧
      calculateSimilarity ⟨7, "Pune", 250, 3, 2, 80, "villa", 18, 73, ["pool"], 0⟩
        ⟨7, "Pune", 250, 3, 2, 80, "villa", 18, 73, ["pool"], 0⟩ = 1 :=
  ⟨by norm_num,
    selfSimilarity_eq_one ⟨7, "Pune", 250, 3, 2, 80, "villa", 18, 73, ["pool"], 0⟩
      (by norm_num) (by norm_num)⟩

theorem normVecAux_length : ∀ (v ms : List ℚ) (ss : List ℝ),
    (normVecAux v ms ss).length = v.length
  | [], _, _ => rfl
  | _ :: _, [], _ => by simp [normVecAux]
  | _ :: _, _ :: _, [] => by simp [normVecAux]
  | _ :: xs, _ :: ms, _ :: ss => by
    simp [normVecAux, normVecAux_length xs ms ss]

/-- C8: training on the empty collection returns the failure indicator
false and the model state completely unchanged. -/
theorem trainModel_empty_input (m : Model) : trainModel m [] = (false, m) := rfl

/-- Evaluation of the precision-6 rendering at a value with seven
significant digits: the seventh digit is rounded away. -/
theorem render6_seven_digits : render6 (1.234567 : ℝ) = 1.23457 := by
  have hexp : decExp (1.234567 : ℝ) = 0 := by
    rw [decExp, abs_of_pos (by norm_num), Int.log_of_one_le_right 10 (by norm_num)]
    rw [show ⌊(1.234567 : ℝ)⌋₊ = 1 by rw [Nat.floor_eq_iff (by norm_num)]; norm_num]
    simp [Nat.log_one_right]
  rw [render6, if_neg (by norm_num), hexp]
  have hdiv : (1.234567 : ℝ) / (10 : ℝ) ^ ((0 : ℤ) - 5) = 123456.7 := by norm_num
  rw [hdiv]
  rw [show round ((123456.7 : ℝ)) = 123457 by rw [round_eq, Int.floor_eq_iff]; norm_num]
  norm_num

/-- A trained model whose bias carries seven significant digits, used
to exhibit the precision loss of the save format. -/
def demoPreciseModel : Model :=
  { initModel with is_trained := true, weights := [(1 : ℝ)], bias := 1.234567 }

/-- C2 (counterexample): the save format renders every number with 6
significant digits, so saving a trained model with bias 1.234567 and
loading the result back yields bias 1.23457 — the round trip does not
reproduce the original decimal value. -/
theorem saveLoad_roundtrip_not_exact :
    saveModel demoPreciseModel =
      some ⟨"linear_regression", render6 (1.234567 : ℝ), [render6 (1 : ℝ)]⟩ ∧
      (loadModel initModel
          ⟨"linear_regression", render6 (1.234567 : ℝ), [render6 (1 : ℝ)]⟩).2.bias =
        (1.23457 : ℝ) ∧
      (loadModel initModel
          ⟨"linear_regression", render6 (1.234567 : ℝ), [render6 (1 : ℝ)]⟩).2.bias ≠
        demoPreciseModel.bias := by
  refine ⟨rfl, ?_, ?_⟩
  · show render6 (1.234567 : ℝ) = (1.23457 : ℝ)
    exact render6_seven_digits
  · show render6 (1.234567 : ℝ) ≠ demoPreciseModel.bias
    rw [render6_seven_digits]
    show (1.23457 : ℝ) ≠ 1.234567
    norm_num

/-- C2 (amended): loading a saved trained model into any model state
reproduces the precision-6 decimal renderings of the saved bias and
weights — exactly those rendered values, one per weight in vector
order, but in general not the original values, which the rendering
truncates at the sixth significant digit — sets the trained flag to
true exactly when the loaded weight count is positive, and leaves the
encodings of the receiving state and the normalization parameters
untouched (they are not part of the persisted form). -/
theorem saveLoad_roundtrip (m target : Model) (f : SavedModel)
    (hf : saveModel m = some f) :
    (loadModel target f).2.bias = render6 m.bias ∧
      (loadModel target f).2.weights = m.weights.map render6 ∧
      ((loadModel target f).2.is_trained = true ↔
        0 < (loadModel target f).2.weights.length) ∧
      (loadModel target f).2.city_encoding = target.city_encoding ∧
      (loadModel target f).2.type_encoding = target.type_encoding ∧
      (loadModel target f).2.feature_means = target.feature_means ∧
      (loadModel target f).2.feature_stds = target.feature_stds := by
  unfold saveModel at hf
  split at hf
  · exact absurd hf (by simp)
  · rw [Option.some_inj] at hf
    subst hf
    refine ⟨rfl, rfl, ?_, rfl, rfl, rfl, rfl⟩
    simp [loadModel, List.isEmpty_iff, List.length_pos]

/-- A concrete trained model state used to witness C2. -/
def demoTrainedModel : Model :=
  { initModel with is_trained := true, weights := [(2 : ℝ)], bias := 5 }

/-- The persisted form of `demoTrainedModel`: the rendered bias and
the rendered weights. -/
noncomputable def demoSavedModel : SavedModel :=
  ⟨"linear_regression", render6 5, [render6 (2 : ℝ)]⟩

/-- C2 (witness): the amended round-trip theorem applied to a concrete
trained model, loading into a fresh model. -/
theorem saveLoad_roundtrip_witness :
    saveModel demoTrainedModel = some demoSavedModel ∧
      ((loadModel initModel demoSavedModel).2.bias = render6 demoTrainedModel.bias ∧
        (loadModel initModel demoSavedModel).2.weights =
          demoTrainedModel.weights.map render6 ∧
        ((loadModel initModel demoSavedModel).2.is_trained = true ↔
          0 < (loadModel initModel demoSavedModel).2.weights.length) ∧
        (loadModel initModel demoSavedModel).2.city_encoding = initModel.city_encoding ∧
        (loadModel initModel demoSavedModel).2.type_encoding = initModel.type_encoding ∧
        (loadModel initModel demoSavedModel).2.feature_means = initModel.feature_means ∧
        (loadModel initModel demoSavedModel).2.feature_stds = initModel.feature_stds) :=
  ⟨rfl, saveLoad_roundtrip demoTrainedModel initModel demoSavedModel rfl⟩

/-- C7: prediction returns 0 on an untrained model; on a trained model
whose weight count matches the 9 extracted features it returns the
affine combination of the stored weights with the normalized feature
vector, clamped below at 0; and the returned price is never negative
in any case. -/
theorem predictPrice_spec (m : Model) (p : Property) :
    (m.is_trained = false → (predictPrice m p).2 = 0) ∧
    (m.is_trained = true → m.weights.length = 9 →
      (predictPrice m p).2 =
        max 0 (m.bias +
          (List.zipWith (· * ·) m.weights
            (normalizeFeatureVector m (extractFeatures m p).2)).sum)) ∧
    0 ≤ (predictPrice m p).2 := by
  have hnf : (normalizeFeatureVector m (extractFeatures m p).2).length = 9 := by
    rw [normalizeFeatureVector, normVecAux_length]
    rfl
  refine ⟨?_, ?_, ?_⟩
  · intro h
    simp [predictPrice, h]
  · intro ht hw
    simp only [predictPrice, ht, Bool.true_eq_false, if_false]
    show predictWB m.weights m.bias (normalizeFeatureVector m (extractFeatures m p).2) = _
    rw [predictWB, if_neg]
    rw [hnf, hw]
    simp
  · rcases h : m.is_trained with _ | _
    · simp [predictPrice, h]
    · simp only [predictPrice, h, Bool.true_eq_false, if_false]
      show 0 ≤ predictWB m.weights m.bias (normalizeFeatureVector m (extractFeatures m p).2)
      rw [predictWB]
      split
      · exact le_refl 0
      · exact le_max_left 0 _

/-- A trained model with 9 unit weights, used to witness C7. -/
def demoNineModel : Model :=
  { initModel with is_trained := true, weights := List.replicate 9 (1 : ℝ), bias := 3 }

/-- C7 (witness): the prediction theorem applied to a concrete trained
model with 9 weights and a concrete listing. -/
theorem predictPrice_spec_witness :
    demoNineModel.is_trained = true ∧
      demoNineModel.weights.length = 9 ∧
      (predictPrice demoNineModel ⟨3, "Pune", 300, 2, 2, 60, "flat", 18, 73, [], 0⟩).2 =
        max 0
          (demoNineModel.bias +
            (List.zipWith (· * ·) demoNineModel.weights
              (normalizeFeatureVector demoNineModel
                (extractFeatures demoNineModel
                  ⟨3, "Pune", 300, 2, 2, 60, "flat", 18, 73, [], 0⟩).2)).sum) :=
  ⟨rfl, rfl,
    (predictPrice_spec demoNineModel
      ⟨3, "Pune", 300, 2, 2, 60, "flat", 18, 73, [], 0⟩).2.1 rfl rfl⟩

/-- C10: on a trained model whose stored weight count differs from the
9 extracted features (as after loading a persisted model with a
different weight count), prediction silently returns 0 for every
listing. -/
theorem predictPrice_dim_mismatch (m : Model) (p : Property)
    (ht : m.is_trained = true) (hw : m.weights.length ≠ 9) :
    (predictPrice m p).2 = 0 := by
  have hnf : (normalizeFeatureVector m (extractFeatures m p).2).length = 9 := by
    rw [normalizeFeatureVector, normVecAux_length]
    rfl
  have hcond : (normalizeFeatureVector m (extractFeatures m p).2).length ≠
      m.weights.length := by
    rw [hnf]
    exact fun hc => hw hc.symm
  simp only [predictPrice, ht, Bool.true_eq_false, if_false]
  show predictWB m.weights m.bias (normalizeFeatureVector m (extractFeatures m p).2) = 0
  rw [predictWB, if_pos hcond]

/-- C10 (witness): a trained model carrying 2 weights (as produced by
loading a 2-weight persisted model) predicts 0 on a concrete listing. -/
theorem predictPrice_dim_mismatch_witness :
    ((loadModel initModel ⟨"linear_regression", 4, [(1 : ℝ), 2]⟩).2.is_trained = true) ∧
      ((loadModel initModel ⟨"linear_regression", 4, [(1 : ℝ), 2]⟩).2.weights.length ≠ 9) ∧
      (predictPrice (loadModel initModel ⟨"linear_regression", 4, [(1 : ℝ), 2]⟩).2
        ⟨5, "Surat", 120, 1, 1, 35, "flat", 21, 72, [], 0⟩).2 = 0 :=
  ⟨rfl, by decide,
    predictPrice_dim_mismatch _ _ rfl (by decide)⟩

/-- C1: the encoding is NOT frozen after training — training on one
listing from Mumbai stores the single city code 0, and a later
prediction call on a Delhi listing grows the city encoding to two
entries, assigning Delhi the new code 1. -/
theorem predictPrice_grows_encoding :
    (trainModel initModel
        [⟨1, "Mumbai", 100, 2, 1, 50, "apartment", 19, 72, [], 0⟩]).2.city_encoding =
      [("Mumbai", 0)] ∧
    (predictPrice
        (trainModel initModel
          [⟨1, "Mumbai", 100, 2, 1, 50, "apartment", 19, 72, [], 0⟩]).2
        ⟨2, "Delhi", 200, 3, 2, 80, "villa", 28, 77, [], 0⟩).1.city_encoding =
      [("Mumbai", 0), ("Delhi", 1)] := by
  constructor
  · rfl
  · rfl

/-- The scored candidate list built by `SearchEngine::recommendSimilar`
(search_engine.cpp:70-77): every listing whose id differs from the
identifier of the target, in input order, paired with its similarity score to the
target. -/
def scoredList (properties : List Property) (target : Property) : List (ℚ × Property) :=
  (properties.filter (fun p => p.id != target.id)).map
    (fun p => (calculateSimilarity target p, p))

/-- The `std::sort` postcondition for the comparator
`a.first > b.first` (search_engine.cpp:80-82): pairwise non-increasing
scores. -/
def SortedByScoreDesc (l : List (ℚ × Property)) : Prop :=
  l.Sorted (fun a b => b.1 ≤ a.1)

/-- `SearchEngine::recommendSimilar` (search_engine.cpp:65-93) as an
input/output relation: `std::sort` guarantees only that the scored
list is permuted into some order with non-increasing scores (it is not
a stable sort, so the order of tied scores is unspecified); the first
min(max_results, size) entries of that order are returned (a negative
count yields the empty result).  Every output the C++ function can
produce satisfies this relation. -/
def recommendSimilarRel (properties : List Property) (target : Property)
    (max_results : ℤ) (result : List Property) : Prop :=
  ∃ sorted : List (ℚ × Property),
    sorted.Perm (scoredList properties target) ∧ SortedByScoreDesc sorted ∧
    result = (sorted.take (min max_results (sorted.length : ℤ)).toNat).map Prod.snd

/-- C3 (amended): every possible output of recommendSimilar contains
only input listings whose identifier differs from that of the target, in
non-increasing order of similarity score, truncated to at most
max_results elements, and max_results = 0 yields the empty result; the
order among listings of equal score is NOT guaranteed. -/
theorem recommendSimilar_spec (properties : List Property) (target : Property)
    (max_results : ℤ) (result : List Property)
    (h : recommendSimilarRel properties target max_results result) :
    (∀ p ∈ result, p.id ≠ target.id ∧ p ∈ properties) ∧
    result.Sorted (fun a b =>
      calculateSimilarity target b ≤ calculateSimilarity target a) ∧
    result.length ≤ max_results.toNat ∧
    (max_results = 0 → result = []) := by
  obtain ⟨sorted, hperm, hsorted, hres⟩ := h
  have hmemScored : ∀ x ∈ sorted, x.1 = calculateSimilarity target x.2 ∧
      x.2 ∈ properties ∧ x.2.id ≠ target.id := by
    intro x hx
    have hx2 : x ∈ scoredList properties target := hperm.mem_iff.mp hx
    obtain ⟨p, hp, rfl⟩ := List.mem_map.mp hx2
    have hpf := List.mem_filter.mp hp
    refine ⟨rfl, hpf.1, ?_⟩
    simpa using hpf.2
  subst hres
  refine ⟨?_, ?_, ?_, ?_⟩
  · intro p hp
    obtain ⟨x, hx, rfl⟩ := List.mem_map.mp hp
    have hx' := hmemScored x (List.take_subset _ _ hx)
    exact ⟨hx'.2.2, hx'.2.1⟩
  · have htake :
        (sorted.take (min max_results (sorted.length : ℤ)).toNat).Pairwise
          (fun a b : ℚ × Property => b.1 ≤ a.1) :=
      hsorted.sublist (List.take_sublist _ _)
    refine List.pairwise_map.mpr (htake.imp_of_mem ?_)
    intro a b ha hb hab
    have ha' := hmemScored a (List.take_subset _ _ ha)
    have hb' := hmemScored b (List.take_subset _ _ hb)
    rw [← ha'.1, ← hb'.1]
    exact hab
  · rw [List.length_map, List.length_take]
    exact le_trans (min_le_left _ _) (Int.toNat_le_toNat (min_le_left _ _))
  · intro h0
    subst h0
    have hzero : min (0 : ℤ) (sorted.length : ℤ) = 0 := min_eq_left (by positivity)
    rw [hzero]
    simp

/-- C3 (counterexample): with two candidate listings of equal
similarity score, the reversed order is also a possible output of
recommendSimilar — it satisfies the sort relation — yet it differs
from the input-order (stable) result the claim demands. -/
theorem recommendSimilar_tie_not_stable :
    recommendSimilarRel
        [⟨1, "A", 100, 2, 1, 50, "x", 0, 0, [], 0⟩,
         ⟨2, "A", 100, 2, 1, 50, "x", 0, 0, [], 0⟩]
        ⟨0, "A", 100, 2, 1, 50, "x", 0, 0, [], 0⟩ 2
        [⟨2, "A", 100, 2, 1, 50, "x", 0, 0, [], 0⟩,
         ⟨1, "A", 100, 2, 1, 50, "x", 0, 0, [], 0⟩] ∧
      [(⟨2, "A", 100, 2, 1, 50, "x", 0, 0, [], 0⟩ : Property),
         ⟨1, "A", 100, 2, 1, 50, "x", 0, 0, [], 0⟩] ≠
        [⟨1, "A", 100, 2, 1, 50, "x", 0, 0, [], 0⟩,
         ⟨2, "A", 100, 2, 1, 50, "x", 0, 0, [], 0⟩] := by
  constructor
  · refine ⟨[(calculateSimilarity ⟨0, "A", 100, 2, 1, 50, "x", 0, 0, [], 0⟩
        ⟨2, "A", 100, 2, 1, 50, "x", 0, 0, [], 0⟩,
        ⟨2, "A", 100, 2, 1, 50, "x", 0, 0, [], 0⟩),
      (calculateSimilarity ⟨0, "A", 100, 2, 1, 50, "x", 0, 0, [], 0⟩
        ⟨1, "A", 100, 2, 1, 50, "x", 0, 0, [], 0⟩,
        ⟨1, "A", 100, 2, 1, 50, "x", 0, 0, [], 0⟩)], ?_, ?_, ?_⟩
    · have hsl : scoredList
          [(⟨1, "A", 100, 2, 1, 50, "x", 0, 0, [], 0⟩ : Property),
           ⟨2, "A", 100, 2, 1, 50, "x", 0, 0, [], 0⟩]
          ⟨0, "A", 100, 2, 1, 50, "x", 0, 0, [], 0⟩ =
          [(calculateSimilarity ⟨0, "A", 100, 2, 1, 50, "x", 0, 0, [], 0⟩
              ⟨1, "A", 100, 2, 1, 50, "x", 0, 0, [], 0⟩,
            ⟨1, "A", 100, 2, 1, 50, "x", 0, 0, [], 0⟩),
           (calculateSimilarity ⟨0, "A", 100, 2, 1, 50, "x", 0, 0, [], 0⟩
              ⟨2, "A", 100, 2, 1, 50, "x", 0, 0, [], 0⟩,
            ⟨2, "A", 100, 2, 1, 50, "x", 0, 0, [], 0⟩)] := rfl
      rw [hsl]
      exact List.Perm.swap _ _ _
    · rw [SortedByScoreDesc, List.sorted_cons]
      refine ⟨?_, List.sorted_singleton _⟩
      intro b hb
      rw [List.mem_singleton] at hb
      subst hb
      exact le_refl _
    · simp
  · simp

/-- C3 (witness): the amended theorem applied to a concrete
single-candidate input whose output is forced. -/
theorem recommendSimilar_spec_witness :
    recommendSimilarRel [⟨1, "B", 200, 3, 1, 70, "y", 0, 0, [], 0⟩]
        ⟨0, "B", 200, 3, 1, 70, "y", 0, 0, [], 0⟩ 1
        [⟨1, "B", 200, 3, 1, 70, "y", 0, 0, [], 0⟩] ∧
      ((∀ p ∈ [(⟨1, "B", 200, 3, 1, 70, "y", 0, 0, [], 0⟩ : Property)],
          p.id ≠ (⟨0, "B", 200, 3, 1, 70, "y", 0, 0, [], 0⟩ : Property).id ∧
            p ∈ [(⟨1, "B", 200, 3, 1, 70, "y", 0, 0, [], 0⟩ : Property)]) ∧
        List.Sorted (fun a b =>
          calculateSimilarity ⟨0, "B", 200, 3, 1, 70, "y", 0, 0, [], 0⟩ b ≤
            calculateSimilarity ⟨0, "B", 200, 3, 1, 70, "y", 0, 0, [], 0⟩ a)
          [(⟨1, "B", 200, 3, 1, 70, "y", 0, 0, [], 0⟩ : Property)] ∧
        ([(⟨1, "B", 200, 3, 1, 70, "y", 0, 0, [], 0⟩ : Property)]).length ≤ (1 : ℤ).toNat ∧
        ((1 : ℤ) = 0 → [(⟨1, "B", 200, 3, 1, 70, "y", 0, 0, [], 0⟩ : Property)] = [])) := by
  have hrel : recommendSimilarRel [⟨1, "B", 200, 3, 1, 70, "y", 0, 0, [], 0⟩]
      ⟨0, "B", 200, 3, 1, 70, "y", 0, 0, [], 0⟩ 1
      [⟨1, "B", 200, 3, 1, 70, "y", 0, 0, [], 0⟩] := by
    refine ⟨scoredList [⟨1, "B", 200, 3, 1, 70, "y", 0, 0, [], 0⟩]
      ⟨0, "B", 200, 3, 1, 70, "y", 0, 0, [], 0⟩, List.Perm.refl _, ?_, ?_⟩
    · rw [SortedByScoreDesc]
      exact List.sorted_singleton _
    · simp [scoredList]
  exact ⟨hrel, recommendSimilar_spec _ _ _ _ hrel⟩

theorem getD_zip (a b : List ℚ) (i : ℕ) (h1 : i < a.length) (h2 : i < b.length) :
    (a.zip b).getD i (0, 0) = (a.getD i 0, b.getD i 0) := by
  have hz : i < (a.zip b).length := by
    rw [List.length_zip]
    omega
  rw [List.getD_eq_getElem _ _ hz, List.getD_eq_getElem _ _ h1,
    List.getD_eq_getElem _ _ h2, List.getElem_zip]

theorem getD_replicate {α : Type} (x d : α) (k i : ℕ) (h : i < k) :
    (List.replicate k x).getD i d = x := by
  rw [List.getD_eq_getElem _ _ (by simpa using h), List.getElem_replicate]

theorem vecResize_nil {α : Type} (k : ℕ) (fill : α) :
    vecResize [] k fill = List.replicate k fill := by
  simp [vecResize]

/-- Column view of the accumulation loops of
`calculateNormalizationParams`: folding `zipWith` additions of
per-row contribution vectors over the rows adds, in each column, the
sum of the contributions of that column to the accumulator. -/
theorem foldl_zipWith_col {α β γ : Type} [AddCommMonoid α] (g : β → α)
    (rowf : γ → List β) (d : α) (db : β) :
    ∀ (rows : List γ) (acc : List α) (k : ℕ), acc.length = k →
      (∀ r ∈ rows, (rowf r).length = k) →
      (rows.foldl (fun a r => List.zipWith (fun x y => x + g y) a (rowf r)) acc).length = k ∧
      ∀ i, i < k →
        (rows.foldl (fun a r => List.zipWith (fun x y => x + g y) a (rowf r)) acc).getD i d =
          acc.getD i d + (rows.map (fun r => g ((rowf r).getD i db))).sum
  | [], acc, k, hacc, _ => by
    refine ⟨hacc, ?_⟩
    intro i hi
    simp
  | r :: rows, acc, k, hacc, hrows => by
    have hr : (rowf r).length = k := hrows r (List.mem_cons_self _ _)
    have hacc' : (List.zipWith (fun x y => x + g y) acc (rowf r)).length = k := by
      rw [List.length_zipWith, hacc, hr, Nat.min_self]
    obtain ⟨hlen, hcol⟩ := foldl_zipWith_col g rowf d db rows
      (List.zipWith (fun x y => x + g y) acc (rowf r)) k hacc'
      (fun r2 hr2 => hrows r2 (List.mem_cons_of_mem _ hr2))
    refine ⟨hlen, ?_⟩
    intro i hi
    have hia : i < acc.length := by omega
    have hib : i < (rowf r).length := by omega
    have hiz : i < (List.zipWith (fun x y => x + g y) acc (rowf r)).length := by omega
    have hstep : (List.zipWith (fun x y => x + g y) acc (rowf r)).getD i d =
        acc.getD i d + g ((rowf r).getD i db) := by
      rw [List.getD_eq_getElem _ _ hiz, List.getD_eq_getElem _ _ hia,
        List.getD_eq_getElem _ _ hib, List.getElem_zipWith]
    rw [List.foldl_cons, hcol i hi, hstep, List.map_cons, List.sum_cons, add_assoc]

theorem getD_map_div (l : List ℚ) (c : ℚ) (i : ℕ) (h : i < l.length) :
    (l.map (fun x => x / c)).getD i 0 = l.getD i 0 / c := by
  rw [List.getD_eq_getElem _ _ (by simpa using h), List.getD_eq_getElem _ _ h,
    List.getElem_map]

theorem getD_map_clamp (l : List ℝ) (c : ℝ) (i : ℕ) (h : i < l.length) :
    (l.map (fun s => if Real.sqrt (s / c) = 0 then 1 else Real.sqrt (s / c))).getD i 1 =
      (if Real.sqrt (l.getD i 0 / c) = 0 then 1 else Real.sqrt (l.getD i 0 / c)) := by
  rw [List.getD_eq_getElem _ _ (by simpa using h), List.getD_eq_getElem _ _ h,
    List.getElem_map]

theorem getD_map_cast (l : List ℚ) (i : ℕ) (h : i < l.length) :
    (l.map (fun q : ℚ => ((q : ℚ) : ℝ))).getD i 0 = ((l.getD i 0 : ℚ) : ℝ) := by
  rw [List.getD_eq_getElem _ _ (by simpa using h), List.getD_eq_getElem _ _ h,
    List.getElem_map]

theorem normVecAux_getD_lt : ∀ (v ms : List ℚ) (ss : List ℝ) (i : ℕ),
    i < v.length → i < ms.length → i < ss.length →
    (normVecAux v ms ss).getD i 0 =
      ((v.getD i 0 - ms.getD i 0 : ℚ) : ℝ) / ss.getD i 1
  | _ :: _, _ :: _, _ :: _, 0, _, _, _ => by
    simp [normVecAux]
  | _ :: xs, _ :: ms, _ :: ss, i + 1, h1, h2, h3 => by
    simp only [normVecAux, List.getD_cons_succ]
    exact normVecAux_getD_lt xs ms ss i (by simpa using h1) (by simpa using h2)
      (by simpa using h3)
  | [], _, _, i, h1, _, _ => absurd h1 (by simp)
  | _ :: _, [], _, i, _, h2, _ => absurd h2 (by simp)
  | _ :: _, _ :: _, [], i, _, _, h3 => absurd h3 (by simp)

theorem normVecAux_getD_ge : ∀ (v ms : List ℚ) (ss : List ℝ) (i : ℕ),
    i < v.length → ms.length ≤ i → ss.length ≤ i →
    (normVecAux v ms ss).getD i 0 = ((v.getD i 0 : ℚ) : ℝ)
  | [], _, _, i, h1, _, _ => absurd h1 (by simp)
  | x :: xs, [], ss, i, h1, _, _ => by
    rcases i with _ | i
    · simp [normVecAux]
    · simp only [normVecAux, List.getD_cons_succ]
      exact getD_map_cast xs i (by simpa using h1)
  | x :: xs, _ :: _, [], i, h1, h2, _ => by
    rcases i with _ | i
    · exact absurd h2 (by simp)
    · simp only [normVecAux, List.getD_cons_succ]
      exact getD_map_cast xs i (by simpa using h1)
  | x :: xs, _ :: ms, s :: ss, i, h1, h2, h3 => by
    rcases i with _ | i
    · exact absurd h2 (by simp)
    · simp only [normVecAux, List.getD_cons_succ]
      exact normVecAux_getD_ge xs ms ss i (by simpa using h1) (by simpa using h2)
        (by simpa using h3)

/-- Following the specification wording (§4.1): per column the stored
mean is the arithmetic mean, the stored standard deviation is the
square root of the divide-by-N variance with 0 replaced by 1, and
normalization rescales exactly the overlapping prefix of the input
elementwise as (x - mean)/std, copying any positions past the stored
parameter count unchanged. -/
def NormalizationSpec (m2 : Model) (M : List (List ℚ)) (k : ℕ) : Prop :=
  m2.feature_means.length = k ∧
  (∀ i, i < k →
    m2.feature_means.getD i 0 = (M.map (fun r => r.getD i 0)).sum / (M.length : ℚ)) ∧
  m2.feature_stds.length = k ∧
  (∀ i, i < k →
    (((M.map (fun r =>
        ((r.getD i 0 - m2.feature_means.getD i 0 : ℚ) : ℝ) ^ 2)).sum / (M.length : ℝ)) = 0 →
      m2.feature_stds.getD i 1 = 1) ∧
    (((M.map (fun r =>
        ((r.getD i 0 - m2.feature_means.getD i 0 : ℚ) : ℝ) ^ 2)).sum / (M.length : ℝ)) ≠ 0 →
      m2.feature_stds.getD i 1 =
        Real.sqrt ((M.map (fun r =>
          ((r.getD i 0 - m2.feature_means.getD i 0 : ℚ) : ℝ) ^ 2)).sum / (M.length : ℝ)))) ∧
  (∀ v : List ℚ,
    (normalizeFeatureVector m2 v).length = v.length ∧
    (∀ i, i < v.length → i < k →
      (normalizeFeatureVector m2 v).getD i 0 =
        ((v.getD i 0 - m2.feature_means.getD i 0 : ℚ) : ℝ) / m2.feature_stds.getD i 1) ∧
    (∀ i, i < v.length → k ≤ i →
      (normalizeFeatureVector m2 v).getD i 0 = ((v.getD i 0 : ℚ) : ℝ)))

/-- C9 (counterexample): on a model whose stored parameter vectors are
not empty (as after an earlier training), `resize` keeps the stale
values and the accumulation adds on top of them: for stored means [5]
and the single-row matrix [[1]] the computed mean is 6, not the
arithmetic column mean 1. -/
theorem calcNormParams_stale_counterexample :
    (calculateNormalizationParams
        { initModel with feature_means := [5], feature_stds := [2] }
        [[1]]).feature_means.getD 0 0 = 6 ∧
      ((([[(1 : ℚ)]].map (fun r => r.getD 0 0)).sum / (([[(1 : ℚ)]].length : ℚ))) = 1) ∧
      (6 : ℚ) ≠ 1 := by
  refine ⟨?_, by norm_num, by norm_num⟩
  norm_num [calculateNormalizationParams, vecResize]

/-- C9 (amended): starting from empty stored parameter vectors (a
fresh model, the state of every first training),
`calculateNormalizationParams` computes per feature column the
arithmetic mean and the population standard deviation (divide by N,
not N-1) with a zero standard deviation replaced by 1, and
`normalizeFeatureVector` rescales exactly the overlapping prefix of
its input elementwise as (x - mean)/std, returning the remaining
positions unchanged and without error. -/
theorem calcNormParams_fresh_spec (m : Model) (M : List (List ℚ)) (k : ℕ)
    (hm : m.feature_means = []) (hs : m.feature_stds = [])
    (hne : M ≠ []) (hk : ∀ r ∈ M, r.length = k) :
    NormalizationSpec (calculateNormalizationParams m M) M k := by
  obtain ⟨r0, rest, rfl⟩ := List.exists_cons_of_ne_nil hne
  have hr0 : r0.length = k := hk r0 (List.mem_cons_self _ _)
  obtain ⟨mt, itr, w, b, fm, fs, ce, te⟩ := m
  simp only at hm hs
  subst hm
  subst hs
  have e : calculateNormalizationParams ⟨mt, itr, w, b, [], [], ce, te⟩ (r0 :: rest) =
      ⟨mt, itr, w, b,
        ((r0 :: rest).foldl (fun acc r => List.zipWith (· + ·) acc r)
            (vecResize [] r0.length 0)).map
          (fun x => x / (((r0 :: rest).length : ℚ))),
        ((r0 :: rest).foldl
            (fun acc r => List.zipWith (fun a xm => a + ((xm.1 - xm.2 : ℚ) : ℝ) ^ 2) acc
              (r.zip (((r0 :: rest).foldl (fun acc r => List.zipWith (· + ·) acc r)
                  (vecResize [] r0.length 0)).map
                (fun x => x / (((r0 :: rest).length : ℚ))))))
            (vecResize [] r0.length 0)).map
          (fun s =>
            if Real.sqrt (s / (((r0 :: rest).length : ℝ))) = 0 then 1
            else Real.sqrt (s / (((r0 :: rest).length : ℝ)))),
        ce, te⟩ := rfl
  rw [e, vecResize_nil r0.length (0 : ℚ), vecResize_nil r0.length (0 : ℝ), hr0]
  set A := (r0 :: rest).foldl (fun acc r => List.zipWith (· + ·) acc r)
    (List.replicate k (0 : ℚ)) with hA
  set ms := A.map (fun x => x / (((r0 :: rest).length : ℚ))) with hms
  set F := (r0 :: rest).foldl
    (fun acc r => List.zipWith (fun a xm => a + ((xm.1 - xm.2 : ℚ) : ℝ) ^ 2) acc (r.zip ms))
    (List.replicate k (0 : ℝ)) with hF
  set sd := F.map
    (fun s =>
      if Real.sqrt (s / (((r0 :: rest).length : ℝ))) = 0 then 1
      else Real.sqrt (s / (((r0 :: rest).length : ℝ)))) with hsd
  have hAfacts :
      A.length = k ∧
      ∀ i, i < k → A.getD i 0 =
        (List.replicate k (0 : ℚ)).getD i 0 + ((r0 :: rest).map (fun r => r.getD i 0)).sum :=
    foldl_zipWith_col (fun x : ℚ => x) (fun r : List ℚ => r) 0 0 (r0 :: rest)
      (List.replicate k 0) k (by simp) hk
  have hALen : A.length = k := hAfacts.1
  have hmsLen : ms.length = k := by rw [hms, List.length_map, hALen]
  have hAgetD : ∀ i, i < k →
      A.getD i 0 = ((r0 :: rest).map (fun r => r.getD i 0)).sum := by
    intro i hi
    rw [hAfacts.2 i hi, getD_replicate _ _ _ _ hi, zero_add]
  have hmsGetD : ∀ i, i < k →
      ms.getD i 0 = ((r0 :: rest).map (fun r => r.getD i 0)).sum / (((r0 :: rest).length : ℚ)) := by
    intro i hi
    rw [hms, getD_map_div A _ i (by omega), hAgetD i hi]
  have hzipLen : ∀ r ∈ (r0 :: rest), (r.zip ms).length = k := by
    intro r hr
    rw [List.length_zip, hk r hr, hmsLen, Nat.min_self]
  have hFfacts :
      F.length = k ∧
      ∀ i, i < k → F.getD i 0 =
        (List.replicate k (0 : ℝ)).getD i 0 +
          ((r0 :: rest).map
            (fun r => ((((r.zip ms).getD i (0, 0)).1 - ((r.zip ms).getD i (0, 0)).2 : ℚ) : ℝ) ^ 2)).sum :=
    foldl_zipWith_col (fun xm : ℚ × ℚ => ((xm.1 - xm.2 : ℚ) : ℝ) ^ 2)
      (fun r : List ℚ => r.zip ms) 0 (0, 0) (r0 :: rest)
      (List.replicate k 0) k (by simp) hzipLen
  have hFLen : F.length = k := hFfacts.1
  have hsdLen : sd.length = k := by rw [hsd, List.length_map, hFLen]
  have hFgetD : ∀ i, i < k → F.getD i 0 =
      ((r0 :: rest).map (fun r => ((r.getD i 0 - ms.getD i 0 : ℚ) : ℝ) ^ 2)).sum := by
    intro i hi
    rw [hFfacts.2 i hi, getD_replicate _ _ _ _ hi, zero_add]
    congr 1
    apply List.map_congr_left
    intro r hr
    rw [getD_zip r ms i (by rw [hk r hr]; exact hi) (by omega)]
  refine ⟨hmsLen, hmsGetD, hsdLen, ?_, ?_⟩
  · intro i hi
    have hiF : i < F.length := by omega
    have hiSd : i < sd.length := by omega
    have hsdVal : sd.getD i 1 =
        (if Real.sqrt (F.getD i 0 / (((r0 :: rest).length : ℝ))) = 0 then 1
          else Real.sqrt (F.getD i 0 / (((r0 :: rest).length : ℝ)))) := by
      rw [hsd, getD_map_clamp F _ i (by omega)]
    have hsum_nonneg :
        0 ≤ ((r0 :: rest).map (fun r => ((r.getD i 0 - ms.getD i 0 : ℚ) : ℝ) ^ 2)).sum := by
      apply List.sum_nonneg
      intro x hx
      obtain ⟨r, _, rfl⟩ := List.mem_map.mp hx
      positivity
    have hvar_nonneg :
        0 ≤ ((r0 :: rest).map (fun r => ((r.getD i 0 - ms.getD i 0 : ℚ) : ℝ) ^ 2)).sum /
          (((r0 :: rest).length : ℝ)) := by
      apply div_nonneg hsum_nonneg
      positivity
    constructor
    · intro hzero
      rw [hsdVal, hFgetD i hi, hzero, Real.sqrt_zero, if_pos rfl]
    · intro hnz
      rw [hsdVal, hFgetD i hi, if_neg]
      intro hcontra
      have hpos : 0 < ((r0 :: rest).map
          (fun r => ((r.getD i 0 - ms.getD i 0 : ℚ) : ℝ) ^ 2)).sum /
            (((r0 :: rest).length : ℝ)) := lt_of_le_of_ne hvar_nonneg (Ne.symm hnz)
      have hsq := Real.sqrt_pos.mpr hpos
      exact absurd hcontra (ne_of_gt hsq)
  · intro v
    refine ⟨normVecAux_length v ms sd, ?_, ?_⟩
    · intro i hiv hik
      exact normVecAux_getD_lt v ms sd i hiv (by omega) (by omega)
    · intro i hiv hik
      exact normVecAux_getD_ge v ms sd i hiv (by omega) (by omega)

/-- C9 (witness): the normalization theorem applied to a fresh model
and a concrete two-row one-column matrix. -/
theorem calcNormParams_fresh_spec_witness :
    initModel.feature_means = [] ∧ initModel.feature_stds = [] ∧
      ([[(1 : ℚ)], [(3 : ℚ)]] : List (List ℚ)) ≠ [] ∧
      (∀ r ∈ [[(1 : ℚ)], [(3 : ℚ)]], r.length = 1) ∧
      NormalizationSpec (calculateNormalizationParams initModel [[(1 : ℚ)], [(3 : ℚ)]])
        [[(1 : ℚ)], [(3 : ℚ)]] 1 := by
  have hk : ∀ r ∈ [[(1 : ℚ)], [(3 : ℚ)]], r.length = 1 := by
    intro r hr
    rcases List.mem_cons.mp hr with rfl | hr
    · rfl
    · rcases List.mem_cons.mp hr with rfl | hr
      · rfl
      · exact absurd hr (List.not_mem_nil r)
  exact ⟨rfl, rfl, by simp, hk,
    calcNormParams_fresh_spec initModel _ 1 rfl rfl (by simp) hk⟩

end PF
